import Mathlib

/-!
Shallow embedding of the LOINC mapping validation/correction program
(src/altLoincSuggesterGen6.js, src/pcornetValidationMgr.js, src/lib/loincUtils.js,
src/lib/labNameParser.js, src/lib/loincPartSynonyms.js, src/lib/common.js),
together with theorems settling the specification claims about:
the catalog attribute index and its set query, the tiered relaxation matcher,
the best-match scorer/selector, the judgment state machine, record exclusion,
the component-modifier verification guard, and the part-compatibility test.

Modelling conventions:
- JavaScript strings are Lean `String`s; a missing/undefined string-valued
  expression (e.g. `list[0]` of an empty array) is modelled as `""` except where
  the distinction is observable, which is noted at the definition concerned.
- JS arrays used as sets (`Set`) are Lean `List`s; only membership matters and
  the theorems are stated in terms of membership.
- Each LOINC part of a catalog record holds zero or one value; we model the
  record with a total function `part : PartType → String` where `""` means the
  part is absent (this is exactly how `loincUtils.js` builds `loincToParts`:
  `parts[partType] = [row[partType]]` when non-empty, else `[]`, and how the
  index coerces the one-element list to its value and `[]` to `""`).
-/

/-- The seven LOINC part types handled by the program
(`PartTypeList = ['CLASS','COMPONENT','PROPERTY','TIME','SYSTEM','SCALE','METHOD']`
in `loincUtils.js`). -/
inductive PartType where
  | CLASS | COMPONENT | PROPERTY | TIME | SYSTEM | SCALE | METHOD
deriving DecidableEq, Repr

/-- `PartTypeList` from `loincUtils.js`, in source order. -/
def PartTypeList : List PartType :=
  [.CLASS, .COMPONENT, .PROPERTY, .TIME, .SYSTEM, .SCALE, .METHOD]

/-- One catalog entry of `loincToParts`: the LOINC number plus the copied
non-part fields and the part values (`""` = absent part). -/
structure LoincRec where
  LOINC_NUM : String
  LONG_COMMON_NAME : String := ""
  STATUS : String := ""
  EXAMPLE_UCUM_UNITS : String := ""
  part : PartType → String

/-- The part-value list of a catalog record as used throughout
`altLoincSuggesterGen6.js` (`loincToParts` maps each part type to a list
holding zero or one part name). -/
def LoincRec.partList (r : LoincRec) (pt : PartType) : List String :=
  if r.part pt = "" then [] else [r.part pt]

/-- `row.inferred[partType]` entry: parallel `names`/`types` lists
(see `addInferredLoincParts` in `pcornetValidationMgr.js`). -/
structure InferredInfo where
  names : List String
  types : List String
deriving DecidableEq, Repr

/-- One pcornet data row, restricted to the fields the embedded functions read
or write.  `part` holds the copy of the assigned LOINC's parts
(`addLoincPartsFillMissingColumns` sets `row[part] = loinc[part][0] || ''`);
`inferred` is `row.inferred` with `none` for an absent key. -/
structure Row where
  LAB_LOINC : String := ""
  RAW_LAB_NAME : String := ""
  RAW_UNIT : String := ""
  SPECIMEN_SOURCE : String := ""
  INC_CATEGORY : String := ""
  ucum_converted : String := ""
  part : PartType → String := fun _ => ""
  inferred : PartType → Option InferredInfo := fun _ => none
  ALGO_JUDGEMENT : String := ""
  ALGO_MAPPING_ISSUES : List String := []
  SGG_LOINC : String := ""
  SGG_LONG_COMMON_NAME : String := ""
  SGG_OTHER : String := ""
  RULE_RELAXED_BY : String := ""
  TARGET_TERM : String := ""

/-! ### Part synonyms (`src/lib/loincPartSynonyms.js`) -/

/-- The synonym groups of `partSynonyms` in `loincPartSynonyms.js`; only
`SYSTEM` has groups (the third group is the syntax illustration kept in the
source). -/
def systemSynonymGroups : List (List String) :=
  [["Ser", "Plas", "Ser/Plas"],
   ["Bld", "Ser/Plas/Bld"],
   ["xxxx-1", "xxxxx-2"]]

/-- `getPartSynonyms(partType, partName)` of `loincPartSynonyms.js`: the synonym
group containing the name, for the part types that have groups ([] models the
JS `null`, which every caller immediately defaults to an empty list). -/
def getPartSynonyms (pt : PartType) (p : String) : List String :=
  if pt = .SYSTEM then
    match systemSynonymGroups.find? (fun g => g.contains p) with
    | some g => g
    | none => []
  else []

/-- `addPartSynonyms(partType, partNames)` of `loincPartSynonyms.js`: append to
the list the not-yet-present synonyms of each original member (the JS loop is
bounded by the original length, so only the original members contribute). -/
def addPartSynonyms (pt : PartType) (names : List String) : List String :=
  names.foldl
    (fun acc n => acc ++ ((getPartSynonyms pt n).filter (fun s => ¬ acc.contains s)))
    names

/-! ### `partsCompatible` (`src/pcornetValidationMgr.js`) -/

/-- `bothInList(plist, p1, p2)` helper inside `partsCompatible`. -/
def bothInList (plist : List String) (p1 p2 : String) : Bool :=
  plist.contains p1 && plist.contains p2

/-- `partsCompatible(partType, p1, p2, row)` of `pcornetValidationMgr.js`.
An absent/undefined part value is modelled as `""` (JS-falsy, which is all the
source tests). -/
def partsCompatible (pt : PartType) (p1 p2 : String) (row : Row) : Bool :=
  if p1 = p2 ∨ (p1 = "" ∧ p2 = "") then true
  else if p1 = "" ∨ p2 = "" then false
  else if pt = .SCALE ∧ bothInList ["Qn", "OrdQn"] p1 p2 then true
  else if pt = .SYSTEM ∧ row.part .CLASS = "UA" ∧ bothInList ["Urine", "Urine sed"] p1 p2 then true
  else if pt = .SYSTEM ∧ row.part .CLASS = "COAG" ∧
      bothInList ["PPP", "Plas", "Ser/Plas"] p1 p2 then true
  else if pt = .SYSTEM ∧ bothInList ["Ser", "Plas", "Ser/Plas", "Ser/Plas/Bld"] p1 p2 then true
  else if pt = .SYSTEM ∧ bothInList ["Urine", "Urine+Ser", "Urine+Ser/Plas"] p1 p2 then true
  else if pt = .SYSTEM ∧ bothInList ["CSF", "Ser+CSF", "Ser/Plas+CSF"] p1 p2 then true
  else (getPartSynonyms pt p1).contains p2 || (getPartSynonyms pt p2).contains p1

/-! ### Catalog attribute index and set query (`src/lib/loincUtils.js`) -/

/-- `buildLoincPartsIndex` of `loincUtils.js`, presented as the lookup it
implements: for part type `pt` and key `v`, the set of LOINC numbers whose
record holds value `v` for `pt` (records with an absent part are inserted
under the key `""`; the JS builds the very same sets by one insertion per
record, `partIndexes[pt][rec[pt] || ''].add(loinc)`). -/
def buildLoincPartsIndex (catalog : List LoincRec) (pt : PartType) (v : String) : List String :=
  (catalog.filter (fun r => r.part pt = v)).map (fun r => r.LOINC_NUM)

/-- `setOR(...sets)` of `common.js`: union of the given sets (the JS orders the
operands by size first, which does not change the resulting set). -/
def setOR (ss : List (List String)) : List String :=
  match ss with
  | [] => []
  | [s] => s
  | s :: rest => rest.foldl (fun acc t => acc ++ t) s

/-- `setAND(...sets)` of `common.js`: intersection of the given sets (empty for
no operands, identity for one; the JS size-sorting is a performance detail
that does not change the resulting set). -/
def setAND (ss : List (List String)) : List String :=
  match ss with
  | [] => []
  | [s] => s
  | s :: rest => s.filter (fun e => rest.all (fun t => t.contains e))

/-- `getLoincForPartsInternal(partIndexes, partTypeNames)` of `loincUtils.js`:
OR within a part type, AND across part types, with a missing index key giving
the empty set. -/
def getLoincForParts (catalog : List LoincRec) (constraints : List (PartType × List String)) :
    List String :=
  setAND (constraints.map (fun c => setOR (c.2.map (fun n => buildLoincPartsIndex catalog c.1 n))))

/-- `hasLoincWithPart(partType, partName)` of `loincUtils.js`
(`!!loincPartIndexex[partType][partName]`: the key exists, i.e. at least one
record was inserted under it). -/
def hasLoincWithPart (catalog : List LoincRec) (pt : PartType) (v : String) : Bool :=
  ¬ (buildLoincPartsIndex catalog pt v).isEmpty

/-! ### String helpers modelling the JS string/regex operations

The JS heuristics use `indexOf`, `startsWith`, `endsWith`, `slice`, `trim`,
case-insensitive literal regex tests (`/crystal/i` etc.) and one
first-occurrence `String.replace` with a literal pattern.  They are modelled on
character lists so that a witness can evaluate them by `decide`. -/

/-- Case-sensitive infix test: `s.indexOf(pat) >= 0` for a literal `pat`. -/
def listInfixCS (pat : List Char) : List Char → Bool
  | [] => pat.isEmpty
  | c :: cs => pat.isPrefixOf (c :: cs) || listInfixCS pat cs

/-- `s.indexOf(c) >= 0` for a single character. -/
def strContainsChar (s : String) (c : Char) : Bool :=
  s.toList.contains c

/-- First index of a character in a list, if any (JS `indexOf` without the -1
encoding). -/
def firstIdxChar (c : Char) : List Char → Option Nat
  | [] => none
  | x :: xs => if x = c then some 0 else (firstIdxChar c xs).map (fun k => k + 1)

/-- `s.indexOf(c) > 0`: the character occurs, but not at position 0. -/
def idxCharPos (s : String) (c : Char) : Bool :=
  match firstIdxChar c s.toList with
  | some (_ + 1) => true
  | _ => false

/-- Lower-case a character list (models the case-insensitive `i` regex flag on
the ASCII literals the source uses). -/
def lowerChars (l : List Char) : List Char := l.map Char.toLower

/-- Case-insensitive literal regex test, e.g. `/crystal/i.test(s)`. -/
def ciContains (s pat : String) : Bool :=
  listInfixCS (lowerChars pat.toList) (lowerChars s.toList)

/-- `s.endsWith(suffix)` (exact). -/
def strEndsWith (s suffix : String) : Bool :=
  (suffix.toList.reverse).isPrefixOf (s.toList.reverse)

/-- `s.startsWith(p)` (exact). -/
def strStartsWith (s p : String) : Bool :=
  p.toList.isPrefixOf s.toList

/-- `s.slice(0, -n)` / `s.substr(0, s.length - n)`: drop the last `n`
characters. -/
def dropLastChars (s : String) (n : Nat) : String :=
  String.mk (s.toList.take (s.toList.length - n))

/-- JS `String.prototype.trim`. -/
def strTrim (s : String) : String :=
  String.mk ((((s.toList.dropWhile (fun c => c.isWhitespace)).reverse).dropWhile
    (fun c => c.isWhitespace)).reverse)

/-- If `pat` is a case-insensitive prefix of `s`, return the rest of `s`. -/
def stripPrefixCI : List Char → List Char → Option (List Char)
  | [], s => some s
  | _ :: _, [] => none
  | p :: ps, c :: cs => if p.toLower = c.toLower then stripPrefixCI ps cs else none

/-- Remove the first case-insensitive occurrence of the literal `pat`
(JS `s.replace(/pat/i, '')`; the string is unchanged when there is no
occurrence). -/
def removeFirstCI (pat : List Char) : List Char → List Char
  | [] => []
  | c :: cs =>
    match stripPrefixCI pat (c :: cs) with
    | some rest => rest
    | none => c :: removeFirstCI pat cs

/-- Remove the first occurrence of `[ ]?pat` case-insensitively
(JS `s.replace(/[ ]?pat/i, '')` for a literal `pat` that does not start with a
space, so the optional space can only match the character right before the
literal). -/
def removeFirstOptSpaceCI (pat : List Char) : List Char → List Char
  | [] => []
  | c :: cs =>
    if c = ' ' then
      match stripPrefixCI pat cs with
      | some rest => rest
      | none =>
        match stripPrefixCI pat (c :: cs) with
        | some rest => rest
        | none => c :: removeFirstOptSpaceCI pat cs
    else
      match stripPrefixCI pat (c :: cs) with
      | some rest => rest
      | none => c :: removeFirstOptSpaceCI pat cs

/-! ### Target profile construction (`replaceAndFind` in
`altLoincSuggesterGen6.js`) -/

/-- `getAltPartsFromInferred(row)`: the inferred part names per part type,
dropped when they are exactly the row's current single value
(`partNames.length !== 1 || partNames[0] !== row[partType]`); `none` models an
absent key. -/
def getAltPartsFromInferred (row : Row) (pt : PartType) : Option (List String) :=
  match row.inferred pt with
  | none => none
  | some info => if info.names = [row.part pt] then none else some info.names

/-- The `targetTermParts` built by `replaceAndFind`: `none` is the explicit
skip request (the JS `null`), produced only for `SYSTEM` when the row's system
is the `XXX` sentinel and no replacement system was inferred; otherwise the
replacement values if present, else the reference LOINC's values, in each case
synonym-expanded. -/
def targetTermParts (row : Row) (refParts : PartType → List String) (pt : PartType) :
    Option (List String) :=
  if pt = .SYSTEM ∧ (getAltPartsFromInferred row .SYSTEM) = none ∧ row.part .SYSTEM = "XXX" then
    none
  else
    match getAltPartsFromInferred row pt with
    | some l => some (addPartSynonyms pt l)
    | none => some (addPartSynonyms pt (refParts pt))

/-! ### The tiered relaxation matcher (`altLoincSuggesterGen6.js`) -/

/-- `getDefaultSpecimen(row)` of `labNameParser.js`
(`defaultSpecimenPerClass[row.CLASS]`; `""` models the JS `undefined` for an
unlisted class). -/
def getDefaultSpecimen (row : Row) : String :=
  match row.part .CLASS with
  | "CHEM" => "Ser/Plas"
  | "DRUG/TOX" => "Ser/Plas"
  | "HEM/BC" => "Bld"
  | "COAG" => "PPP"
  | "MICRO" => "Ser"
  | _ => ""

/-- `shouldTryDefaultSpecimen(row)` of `altLoincSuggesterGen6.js`.  The source
begins with an unconditional `return false;` ("DISALBED FOR NOW"), making the
remainder of the function dead code, so the embedding is the constant false. -/
def shouldTryDefaultSpecimen (_row : Row) : Bool := false

/-- `relaxedComponentMatch(row, targetLoincParts, candidateLoincParts,
relaxations)` of `altLoincSuggesterGen6.js`: the ordered battery of
string-level COMPONENT heuristics.  Returns the matched flag and the
relaxation tags pushed (the JS pushes onto the shared `relaxations` array).
`[0]` of an empty list is modelled as `""` (in the program the target
COMPONENT list is never empty when this is reached). -/
def relaxedComponentMatch (row : Row) (src : PartType → Option (List String))
    (cand : PartType → List String) : Bool × List String :=
  let candidateComp := ((cand .COMPONENT).headD "")
  let targetComp := (((src .COMPONENT).getD []).headD "")
  let targetPROPERTY := (src .PROPERTY).getD []
  let step1 : Bool × List String :=
    if strContainsChar row.RAW_UNIT '%' ∧ ¬ strContainsChar targetComp '/'
        ∧ idxCharPos candidateComp '/' then
      let relaxedTarget :=
        if ¬ ciContains row.RAW_LAB_NAME "crystal" ∧ strEndsWith targetComp " crystals"
            ∧ ¬ ciContains candidateComp "crystal" then
          dropLastChars targetComp 9
        else targetComp
      if strStartsWith candidateComp (relaxedTarget ++ "/")
          ∨ relaxedTarget ++ " actual/Normal" = candidateComp then
        (true, [if relaxedTarget = targetComp then "COMP-denom for %"
                else "COMP-denom for %, dropping crystals"])
      else (false, [])
    else if targetPROPERTY.contains "NCnc" ∧ candidateComp ++ "/100 leukocytes" = targetComp then
      (true, ["matchPart: NCnc ignoring \"/100 leukocytes\""])
    else (false, [])
  let step2 : Bool × List String :=
    if ¬ step1.1 ∧ targetPROPERTY.any (fun p => ¬ p = "" && strEndsWith p "Cnc")
        ∧ strEndsWith targetComp " actual/Normal"
        ∧ dropLastChars targetComp 14 = candidateComp then
      (true, step1.2 ++ ["matchPart: dropping actual/Normal for ACnc"])
    else step1
  let step3 : Bool × List String :=
    if ¬ step2.1 ∧ ¬ ciContains row.RAW_LAB_NAME "fragments" ∧ ciContains targetComp "fragments"
        ∧ strTrim (String.mk (removeFirstOptSpaceCI "fragments".toList targetComp.toList))
            = candidateComp then
      (true, step2.2 ++ ["matchPart: dropping fragments"])
    else step2
  if ¬ step3.1 ∧ ¬ ciContains row.RAW_LAB_NAME "nucleated" ∧ ciContains targetComp ".nucleated"
      ∧ strTrim (String.mk (removeFirstCI ".nucleated".toList targetComp.toList))
          = candidateComp then
    (true, step3.2 ++ ["matchPart: dropping .nucleated"])
  else step3

/-- `matchPart(context, partType, srcParts, candidateLoincParts,
currRelaxLevel, relaxations)` of `altLoincSuggesterGen6.js`.  Returns the
matched flag and the relaxation tags pushed.  `srcParts[partType] === null`
(skip) is `none`; the exact rule is: skip, or both sides empty, or some source
value occurs among the candidate's values.  The default-specimen branch is
guarded by `shouldTryDefaultSpecimen`, which always returns false. -/
def matchPart (row : Row) (pt : PartType) (src : PartType → Option (List String))
    (cand : PartType → List String) (level : Nat) : Bool × List String :=
  match src pt with
  | none => (true, [])
  | some srcList =>
    if (srcList = [] ∧ cand pt = []) ∨ ∃ e ∈ srcList, e ∈ cand pt then (true, [])
    else
      match pt with
      | .METHOD =>
        if 0 < level ∧ cand pt = [] then (true, ["METHOD-empty-ok"])
        else if 1 < level then (true, ["METHOD-match-waived"])
        else (false, [])
      | .CLASS =>
        if 2 < level then (true, ["CLASS-match-waived"]) else (false, [])
      | .COMPONENT => relaxedComponentMatch row src cand
      | .SYSTEM =>
        if ∃ sys ∈ srcList, partsCompatible .SYSTEM sys ((cand .SYSTEM).headD "") row = true then
          (true, [])
        else if shouldTryDefaultSpecimen row = true ∧
            partsCompatible .SYSTEM (getDefaultSpecimen row) ((cand .SYSTEM).headD "") row
              = true then
          (true, ["matched-with-default-specimen"])
        else if (cand .SYSTEM).headD "" = "XXX" then
          (true, ["specimen-xxx-match-waived"])
        else (false, [])
      | _ => (false, [])

/-- The result of `isAltLoinc`: the matched flag plus the relaxation tags (the
JS attaches `relaxations` only when non-empty; we always carry the list, with
`[]` for the absent field). -/
structure AltStatus where
  matched : Bool
  relaxations : List String
deriving DecidableEq, Repr

/-- The part-scanning loop of `isAltLoinc`: walk the seven part types
accumulating the mismatch count, the mismatched part types, and the pushed
relaxation tags, breaking as soon as the count exceeds 2. -/
def scanGo (row : Row) (src : PartType → Option (List String)) (cand : PartType → List String)
    (level : Nat) : List PartType → Nat → List PartType → List String →
    Nat × List PartType × List String
  | [], count, mis, rel => (count, mis, rel)
  | pt :: rest, count, mis, rel =>
    let r := matchPart row pt src cand level
    let rel' := rel ++ r.2
    if r.1 then scanGo row src cand level rest count mis rel'
    else if 2 < count + 1 then (count + 1, mis ++ [pt], rel')
    else scanGo row src cand level rest (count + 1) (mis ++ [pt]) rel'

/-- `isAltLoinc` of `altLoincSuggesterGen6.js`, with an explicit fuel argument
standing for the recursion depth budget `maxRelaxLevel - currRelaxLevel`
(the source recursion increases the level, which is bounded by
`maxRelaxLevel = 3`; the fuel-0 fallback of the escalation branch is
unreachable when the fuel is `3 - level`, see `isAltLoinc`). -/
def isAltLoincAux (row : Row) (src : PartType → Option (List String))
    (cand : PartType → List String) : Nat → Nat → AltStatus
  | fuel, level =>
    let s := scanGo row src cand level PartTypeList 0 [] []
    if s.1 = 0 then ⟨true, s.2.2⟩
    else if level < 3 ∧ (s.1 = 1 ∧ (PartType.METHOD ∈ s.2.1 ∨ PartType.CLASS ∈ s.2.1) ∨
        s.1 = 2 ∧ PartType.METHOD ∈ s.2.1 ∧ PartType.CLASS ∈ s.2.1) then
      match fuel with
      | 0 => ⟨false, []⟩
      | fuel' + 1 => isAltLoincAux row src cand fuel' (level + 1)
    else ⟨false, []⟩

/-- `isAltLoinc(refLoincParts, partTypesAndAltNames, targetTermParts,
candidateLoincParts, context, currRelaxLevel)` of `altLoincSuggesterGen6.js`:
zero mismatches is a match (reporting the gathered relaxation tags); one
mismatch on METHOD or CLASS, or two mismatches on exactly METHOD and CLASS,
retries at the next relaxation level while the level is below 3; anything else
is a rejection. -/
def isAltLoinc (row : Row) (src : PartType → Option (List String))
    (cand : PartType → List String) (level : Nat) : AltStatus :=
  isAltLoincAux row src cand (3 - level) level

/-- The set of part types that fail `matchPart` at the given level. -/
def mismatchParts (row : Row) (src : PartType → Option (List String))
    (cand : PartType → List String) (level : Nat) : List PartType :=
  PartTypeList.filter (fun pt => !(matchPart row pt src cand level).1)

/-! ### Judgment state machine (`pcornetValidationMgr.js`,
`altLoincSuggesterGen6.js`) -/

/-- The string name of a part type, as used for issue tokens. -/
def ptName : PartType → String
  | .CLASS => "CLASS"
  | .COMPONENT => "COMPONENT"
  | .PROPERTY => "PROPERTY"
  | .TIME => "TIME"
  | .SYSTEM => "SYSTEM"
  | .SCALE => "SCALE"
  | .METHOD => "METHOD"

/-- JS strict equality `===` between a Boolean and a String: the operands have
different types, so the comparison is always false.  This models the guard
`!row.ALGO_JUDGEMENT === 'NON_QN'` in `inferAndValidate` (the `!` binds first,
producing a boolean that is compared with a string). -/
def jsStrictEqBoolStr (_b : Bool) (_s : String) : Bool := false

/-- The default-judgment assignment of `inferAndValidate` (lines 902-905):
`if(!row.ALGO_JUDGEMENT === 'NON_QN' && !row.ALGO_JUDGEMENT.startsWith('WACKO'))
row.ALGO_JUDGEMENT = 'CORRECT_aj'`.  Because the first conjunct compares a
boolean to a string it is always false and the assignment never fires. -/
def defaultJudgmentAssign (j : String) : String :=
  if jsStrictEqBoolStr (j = "") "NON_QN" && !(j.startsWith "WACKO") then "CORRECT_aj" else j

/-- `addRowUpdates(row, fieldName, newValues, unique=true)` of
`pcornetValidationMgr.js`, specialised to a list-valued field: append the
values not already present. -/
def addRowUpdates (curr : List String) (newValues : List String) : List String :=
  newValues.foldl (fun acc v => if acc.contains v then acc else acc ++ [v]) curr

/-- `addAlgoMappingIssue(row, type, confidence)` of `pcornetValidationMgr.js`
(the confidence is accepted and ignored by the source). -/
def addAlgoMappingIssue (row : Row) (t : String) (_confidence : ℚ) : Row :=
  { row with ALGO_MAPPING_ISSUES := addRowUpdates row.ALGO_MAPPING_ISSUES [t] }

/-- `addInferredLoincParts(row, loincPart, newPartNames, inferType)` of
`pcornetValidationMgr.js`: append the new names (with their type tags) that are
not already present.  The source throws on an empty name list; the callers
always pass a non-empty list, and the embedding leaves the row unchanged in
that unreachable case. -/
def addInferredLoincParts (row : Row) (pt : PartType) (newPartNames : List String)
    (inferType : String) : Row :=
  if newPartNames = [] then row
  else
    let info := (row.inferred pt).getD ⟨[], []⟩
    let info := newPartNames.foldl
      (fun (i : InferredInfo) n =>
        if i.names.contains n then i else ⟨i.names ++ [n], i.types ++ [inferType]⟩)
      info
    { row with inferred := fun p => if p = pt then some info else row.inferred p }

/-- `addAlgoIssueAndJudgementIfPartsDisagree(row, partType, inferredPartNames,
confidence, absenceOK=true)` of `pcornetValidationMgr.js`: when the
synonym-expanded inferred names are incompatible with the row's current value,
record the issue and set the judgment to `INCORRECT_aj`.  Returns the updated
row and the function's boolean result. -/
def addAlgoIssueAndJudgementIfPartsDisagree (row : Row) (pt : PartType)
    (inferredPartNames : List String) (confidence : ℚ) (absenceOK : Bool := true) :
    Row × Bool :=
  if inferredPartNames = [] ∨ (absenceOK ∧ row.part pt = "") then (row, false)
  else
    let withSyn := addPartSynonyms pt inferredPartNames
    if row.part pt = "" ∨ ¬ withSyn.any (fun n => partsCompatible pt n (row.part pt) row) then
      ({ addAlgoMappingIssue row (ptName pt) confidence with ALGO_JUDGEMENT := "INCORRECT_aj" },
       true)
    else (row, false)

/-- One judgment-touching step of a processing pass over a record, as a closed
set of the operations the source performs on `ALGO_JUDGEMENT` after the initial
status was set: the dead default assignment of `inferAndValidate`, a
disagreement check (`addAlgoIssueAndJudgementIfPartsDisagree`), the direct
`INCORRECT_aj` assignment of `inferWithHfpLpf`, the `FIXED` assignment of
`executeRules` when corrections were found, and a step that leaves the
judgment alone. -/
inductive PassStep where
  | defaultAssign
  | disagreeCheck (pt : PartType) (names : List String) (confidence : ℚ)
  | hpfIncorrect
  | markFixed
  | idle
deriving Repr

/-- Apply one `PassStep` to a row. -/
def applyPassStep (row : Row) : PassStep → Row
  | .defaultAssign => { row with ALGO_JUDGEMENT := defaultJudgmentAssign row.ALGO_JUDGEMENT }
  | .disagreeCheck pt names conf => (addAlgoIssueAndJudgementIfPartsDisagree row pt names conf).1
  | .hpfIncorrect => { row with ALGO_JUDGEMENT := "INCORRECT_aj" }
  | .markFixed => { row with ALGO_JUDGEMENT := "FIXED" }
  | .idle => row

/-- A row with its judgment replaced. -/
def setJudgment (row : Row) (j : String) : Row :=
  { row with ALGO_JUDGEMENT := j }

/-! ### Initial status and per-record pipeline (`altLoincSuggesterGen6.js`) -/

/-- `loincToParts[id]` lookup over the catalog list. -/
def lookupLoinc (catalog : List LoincRec) (id : String) : Option LoincRec :=
  catalog.find? (fun r => r.LOINC_NUM = id)

/-- `getInitialRowStatus(row)` of `altLoincSuggesterGen6.js`: invalid LOINC,
non-textual raw name (`/^[^a-zA-Z]+$/`), the non-quantitative inclusion
category, or the default `CORRECT_aj`. -/
def getInitialRowStatus (catalog : List LoincRec) (row : Row) : String :=
  if row.LAB_LOINC = "" ∨ (lookupLoinc catalog row.LAB_LOINC).isNone = true then
    "WACKO_INVALID_LOINC"
  else if row.RAW_LAB_NAME = "" ∨
      (row.RAW_LAB_NAME.toList ≠ [] ∧ row.RAW_LAB_NAME.toList.all (fun c => ¬ c.isAlpha)) then
    "WACKO_NUMERIC_RAW_NAME"
  else if row.INC_CATEGORY = "non qn" then "NON_QN"
  else "CORRECT_aj"

/-- `isExcludeStatus(row)` of `altLoincSuggesterGen6.js`. -/
def isExcludeStatus (row : Row) : Bool :=
  ["WACKO_INVALID_LOINC", "WACKO_NUMERIC_RAW_NAME", "NON_QN"].contains row.ALGO_JUDGEMENT

/-- Clearing of the computed fields at the start of `preProcessAndValidate`
(`COMPUTED_FIELDS` are reset; the JS sets present fields to `''`, which for the
structured fields is the JS-falsy empty value modelled here by their empty
forms). -/
def clearComputedFields (row : Row) : Row :=
  { row with
    inferred := fun _ => none
    ALGO_MAPPING_ISSUES := []
    ALGO_JUDGEMENT := ""
    SGG_LOINC := ""
    SGG_LONG_COMMON_NAME := ""
    SGG_OTHER := ""
    RULE_RELAXED_BY := ""
    TARGET_TERM := ""
    ucum_converted := "" }

/-- The per-record preparation steps of `preProcessAndValidate`: clear the
computed fields, normalize the specimen source and the ucum unit, and set the
initial judgment.  `specimenOf` and `ucumOf` stand for
`normalizeSPECIMEN_SOURCE` and `convertToUcum`, which by construction write
only `SPECIMEN_SOURCE` and `ucum_converted`. -/
def preparedRow (catalog : List LoincRec) (specimenOf ucumOf : Row → String) (row : Row) :
    Row :=
  let row := clearComputedFields row
  let row := { row with SPECIMEN_SOURCE := specimenOf row }
  let row := { row with ucum_converted := ucumOf row }
  { row with ALGO_JUDGEMENT := getInitialRowStatus catalog row }

/-- The per-record pipeline: the preparation steps of `preProcessAndValidate`
followed by its excluded-status guard around the inference engine, and the
per-row excluded-status guard of `executeRules` around the matcher.  `infer`
stands for `pcornetValidationMgr.inferAndValidate` and `applyRules` for the
per-row body of `executeRules`, both of which run only when the row is not in
an excluded status. -/
def processRow (catalog : List LoincRec) (specimenOf ucumOf : Row → String)
    (infer applyRules : Row → Row) (row : Row) : Row :=
  let row := preparedRow catalog specimenOf ucumOf row
  let row := if isExcludeStatus row then row else infer row
  if isExcludeStatus row then row else applyRules row

/-! ### Component-modifier inference (`labNameParser.js`,
`pcornetValidationMgr.js`) -/

/-- The adjusted-component result of `getAdjustedComponentByModifier*`
(`labNameParser.js`): a status token, the modifier applied, and the candidate
replacement component when one was built. -/
structure AdjStatus where
  status : String
  modifier : String := ""
  component : Option String := none
deriving DecidableEq, Repr

/-- One entry of the `componentModifiers` configuration of `labNameParser.js`:
the token, its connector, the applicable classes (`none` = no class
restriction), and the compiled name-side test (`entry.nameRegex.test`; the
regexes are word-boundary searches whose exact behaviour the claims do not
depend on, so the test is carried as a function). -/
structure ComponentModifier where
  token : String
  connector : String
  classes : Option (List String)
  nameTest : String → Bool

/-- `entry.modifier = entry.connector + entry.token`. -/
def ComponentModifier.modifierStr (m : ComponentModifier) : String :=
  m.connector ++ m.token

/-- `entry.isInComponent(component)`: `component.indexOf(modifier) >= 0`. -/
def ComponentModifier.isInComponent (m : ComponentModifier) (comp : String) : Bool :=
  listInfixCS m.modifierStr.toList comp.toList

/-- The modifier loop of `getAdjustedComponentByModifierPredefinedRules`:
skip entries whose class list excludes the row's class; for the first entry
found in exactly one of name/component, build the adjusted component by
appending the modifier or stripping its length from the end. -/
def modifierRulesLoop (row : Row) : List ComponentModifier → AdjStatus
  | [] => { status := "none" }
  | m :: rest =>
    if (m.classes.map (fun cls => !cls.contains (row.part .CLASS))).getD false then
      modifierRulesLoop row rest
    else
      let inName := m.nameTest row.RAW_LAB_NAME
      let inComp := m.isInComponent (row.part .COMPONENT)
      if inName ∧ ¬ inComp then
        { status := "name", modifier := m.modifierStr,
          component := some (row.part .COMPONENT ++ m.modifierStr) }
      else if ¬ inName ∧ inComp then
        { status := "component", modifier := m.modifierStr,
          component := some (dropLastChars (row.part .COMPONENT) m.modifierStr.toList.length) }
      else if inName ∧ inComp then
        { status := "both", modifier := m.modifierStr }
      else modifierRulesLoop row rest

/-- `getAdjustedComponentByModifierPredefinedRules(row)` of
`labNameParser.js`. -/
def getAdjustedComponentByModifierPredefinedRules (mods : List ComponentModifier) (row : Row) :
    AdjStatus :=
  if row.RAW_LAB_NAME = "" ∨ row.part .COMPONENT = "" then { status := "blank" }
  else modifierRulesLoop row mods

/-- `getAdjustedComponentByModifier(row)` of `labNameParser.js`: the predefined
modifier rules, falling back to the IgX subtype rule (carried as the function
`igxAdjust`, since its behaviour rests on a regex extraction the claims do not
depend on). -/
def getAdjustedComponentByModifier (mods : List ComponentModifier)
    (igxAdjust : Row → AdjStatus) (row : Row) : AdjStatus :=
  let result := getAdjustedComponentByModifierPredefinedRules mods row
  if result.component ≠ none ∨ result.status = "blank" then result
  else igxAdjust row

/-- `inferComponentByModifier(row)` of `pcornetValidationMgr.js`: a candidate
replacement component is recorded only if it exists as a COMPONENT value in the
LOINC table (`hasLoincWithPart`), otherwise it is discarded. -/
def inferComponentByModifier (catalog : List LoincRec) (mods : List ComponentModifier)
    (igxAdjust : Row → AdjStatus) (row : Row) : Row :=
  match (getAdjustedComponentByModifier mods igxAdjust row).component with
  | some c =>
    if hasLoincWithPart catalog .COMPONENT c then
      let row := addInferredLoincParts row .COMPONENT [c] "inferred"
      (addAlgoIssueAndJudgementIfPartsDisagree row .COMPONENT [c] (8/10)).1
    else row
  | none => row

/-- The inferred names recorded on a row for a part type. -/
def inferredNames (row : Row) (pt : PartType) : List String :=
  ((row.inferred pt).getD ⟨[], []⟩).names

/-! ### Best-match scoring and selection (`selectBestMatch` in
`altLoincSuggesterGen6.js`) -/

/-- One accepted match as collected by `executeRules`: a deep-copied
`loincToParts` record (each part type maps to a list of zero or one names)
plus its relaxation tags (`[]` for the absent field; the source attaches the
field only when non-empty) and the mutable score.  JS numbers are modelled as
real numbers. -/
structure MatchInfo where
  LOINC_NUM : String
  LONG_COMMON_NAME : String := ""
  STATUS : String := ""
  EXAMPLE_UCUM_UNITS : String := ""
  part : PartType → List String
  relaxations : List String := []
  score : ℝ := 0

/-- The per-part match test of the score's `count` loop: when inferred names
exist for the part compare the candidate's value against them, otherwise
compare against the row's current value (JS `===` with `undefined` for the
first element of an empty list never equals a string, hence the `head?`
formulation; `!row[part] && !m[part][0]` accepts an empty row value with an
empty or `""` candidate head). -/
def selPartMatched (row : Row) (m : MatchInfo) (pt : PartType) : Bool :=
  match row.inferred pt with
  | some info =>
    if info.names ≠ [] then info.names.any (fun n => (m.part pt).head? = some n)
    else (row.part pt = "" && ((m.part pt).head?.getD "") = "") ||
      ((m.part pt).head? = some (row.part pt))
  | none =>
    (row.part pt = "" && ((m.part pt).head?.getD "") = "") ||
      ((m.part pt).head? = some (row.part pt))

/-- The `count` of matching part types computed inside `selectBestMatch`. -/
def countMatchedParts (row : Row) (m : MatchInfo) : Nat :=
  (PartTypeList.filter (fun pt => selPartMatched row m pt)).length

/-- The sequential score computation of `selectBestMatch` (base 50; the
relaxation penalty `25 * relaxations.length ** 0.25` when the relaxations
field is present; the status penalties; the `XXX`-system boost; the raw-unit
bonus; the all-parts bonus). -/
noncomputable def computeScore (row : Row) (m : MatchInfo) : ℝ :=
  let score : ℝ := 50
  let score := if m.relaxations ≠ [] then
      score - 25 * ((m.relaxations.length : ℝ) ^ (0.25 : ℝ)) else score
  let score := if m.STATUS = "DEPRECATED" then score - 20 else score
  let score := if m.STATUS = "DISCOURAGED" then score - 10 else score
  let score := if row.part .SYSTEM = "XXX" ∧ (row.inferred .SYSTEM).isNone = true then
      (if partsCompatible .SYSTEM ((m.part .SYSTEM).headD "") row.SPECIMEN_SOURCE row = true ∨
          partsCompatible .SYSTEM ((m.part .SYSTEM).headD "") (getDefaultSpecimen row) row
            = true then
        score + 35
      else score)
    else score
  let score := if row.RAW_UNIT ≠ "" ∧ row.RAW_UNIT = m.EXAMPLE_UCUM_UNITS then score + 10
    else score
  if countMatchedParts row m = PartTypeList.length then score + 50 else score

/-- The duplicate-removal loop of `selectBestMatch`: walk the sorted
candidates keeping the first occurrence of each LOINC number (`seen` starts
with the primary's number). -/
def dedupKeepFirst (seen : List String) : List MatchInfo → List MatchInfo
  | [] => []
  | m :: ms =>
    if seen.contains m.LOINC_NUM then dedupKeepFirst seen ms
    else m :: dedupKeepFirst (m.LOINC_NUM :: seen) ms

/-- `selectBestMatch(allMatches, row, rules)` of `altLoincSuggesterGen6.js`:
`none` for an empty input (the JS `[null, null]`); a single match is returned
as is; otherwise score every match, sort descending by score, deduplicate by
LOINC number keeping the first occurrence, and return the head and the rest.
The JS `Array.prototype.sort` with the comparator `getSort([m => m.score,
true])` is modelled by `insertionSort` with the reflexive descending
relation. -/
noncomputable def selectBestMatch (row : Row) (allMatches : List MatchInfo) :
    Option (MatchInfo × List MatchInfo) :=
  match allMatches with
  | [] => none
  | [m] => some (m, [])
  | m1 :: m2 :: tl =>
    letI : DecidableRel (fun a b : MatchInfo => b.score ≤ a.score) :=
      fun _ _ => Classical.propDecidable _
    let scored := (m1 :: m2 :: tl).map (fun m => { m with score := computeScore row m })
    match scored.insertionSort (fun a b => b.score ≤ a.score) with
    | [] => none
    | c0 :: rest => some (c0, dedupKeepFirst [c0.LOINC_NUM] rest)

/-! ### Concrete sample data used by the witness theorems -/

/-- A default row (all fields empty). -/
def rowW : Row := {}

/-- A target profile requesting only a METHOD value (everything else skipped). -/
def srcMethodOnly : PartType → Option (List String) :=
  fun pt => if pt = .METHOD then some ["Manual count"] else none

/-- A candidate holding a different METHOD value everywhere it matters. -/
def candMethodB : PartType → List String :=
  fun pt => if pt = .METHOD then ["Microscopy"] else []

/-- A target profile that skips every part type. -/
def srcAllSkip : PartType → Option (List String) := fun _ => none

/-- A candidate with no part values at all. -/
def candEmpty : PartType → List String := fun _ => []

/-- A row whose class is CHEM (class-default specimen `Ser/Plas`) used by the
C8 counterexample. -/
def rowChem : Row := { part := fun pt => if pt = .CLASS then "CHEM" else "" }

/-- A target profile requesting SYSTEM `Urine`. -/
def srcUrine : PartType → Option (List String) :=
  fun pt => if pt = .SYSTEM then some ["Urine"] else none

/-- A candidate whose SYSTEM is `Ser/Plas` (the CHEM class-default
specimen). -/
def candSerPlas : PartType → List String :=
  fun pt => if pt = .SYSTEM then ["Ser/Plas"] else []

/-- A row whose seven parts are all `"Glucose"`, with no inferred parts. -/
def rowAllGlucose : Row := { part := fun _ => "Glucose" }

/-- A candidate match whose seven parts are all `["Glucose"]`. -/
def matchAllGlucose : MatchInfo :=
  { LOINC_NUM := "1-1", part := fun _ => ["Glucose"] }

/-- The reference part lists matching `rowAllGlucose`. -/
def refAllGlucose : PartType → List String := fun _ => ["Glucose"]

/-- A one-entry catalog whose entry has COMPONENT `Glucose`. -/
def catGlucose : List LoincRec :=
  [{ LOINC_NUM := "1-1", part := fun pt => if pt = .COMPONENT then "Glucose" else "" }]

/-- An IgX adjuster producing a component absent from `catGlucose`. -/
def igxZzz : Row → AdjStatus :=
  fun _ => { status := "fixed", modifier := "IgX", component := some "Zzz" }

/-- A row with a non-empty raw name and component, used by the C9 witness. -/
def rowGlu : Row :=
  { RAW_LAB_NAME := "GLUCOSE", part := fun pt => if pt = .COMPONENT then "Glucose" else "" }

/-! ## Helper lemmas -/

/-- `bothInList` is symmetric in its two value arguments. -/
theorem bothInList_comm (l : List String) (p1 p2 : String) :
    bothInList l p1 p2 = bothInList l p2 p1 := by
  simp [bothInList, Bool.and_comm]

/-- Original members survive `addPartSynonyms`. -/
theorem mem_addPartSynonyms_self (pt : PartType) (names : List String) (x : String)
    (hx : x ∈ names) : x ∈ addPartSynonyms pt names := by
  have grow : ∀ (l acc : List String), x ∈ acc →
      x ∈ l.foldl
        (fun acc n => acc ++ ((getPartSynonyms pt n).filter (fun s => ¬ acc.contains s))) acc := by
    intro l
    induction l with
    | nil => intro acc h; simpa using h
    | cons n rest ih =>
      intro acc h
      exact ih _ (List.mem_append_left _ h)
  exact grow names names hx

/-- A filter keeps the whole list exactly when the predicate holds
everywhere. -/
theorem length_filter_eq_iff {α : Type} (p : α → Bool) (l : List α) :
    (l.filter p).length = l.length ↔ ∀ a ∈ l, p a = true := by
  induction l with
  | nil => simp
  | cons a rest ih =>
    by_cases h : p a = true
    · simp [h, ih]
    · have hfa : p a = false := by revert h; cases p a <;> simp
      simp only [List.filter_cons, hfa, Bool.false_eq_true, if_false, List.length_cons]
      constructor
      · intro hlen
        exfalso
        have hle := List.length_filter_le p rest
        omega
      · intro hall
        exact absurd (hall a (by simp)) h

/-- `hasLoincWithPart` holds exactly when some catalog record carries the
value. -/
theorem hasLoincWithPart_iff (catalog : List LoincRec) (pt : PartType) (v : String) :
    hasLoincWithPart catalog pt v = true ↔ ∃ r ∈ catalog, r.part pt = v := by
  simp only [hasLoincWithPart, buildLoincPartsIndex, decide_eq_true_eq,
    List.isEmpty_iff, List.map_eq_nil_iff, ← List.filter_eq_nil_iff]
  constructor
  · intro h
    rcases List.exists_mem_of_ne_nil _ h with ⟨r, hr⟩
    exact ⟨r, (List.mem_filter.mp hr).1, by simpa using (List.mem_filter.mp hr).2⟩
  · intro ⟨r, hr, hv⟩ hnil
    have : r ∈ List.filter (fun r => decide (r.part pt = v)) catalog :=
      List.mem_filter.mpr ⟨hr, by simpa using hv⟩
    simp [hnil] at this

/-! ## C1: the single-constraint catalog query is exact -/

/-- C1: for every part type `t` and value `v`, querying the catalog attribute
index with the single constraint `(t, [v])` returns exactly the identifiers of
the catalog entries whose profile holds `v` for `t` (absent attributes are
retrievable under `v = ""`): no omissions and no extras. -/
theorem getLoincForParts_single_constraint_exact (catalog : List LoincRec) (t : PartType)
    (v id : String) :
    id ∈ getLoincForParts catalog [(t, [v])] ↔
      ∃ r ∈ catalog, r.LOINC_NUM = id ∧ r.part t = v := by
  show id ∈ buildLoincPartsIndex catalog t v ↔ _
  simp only [buildLoincPartsIndex, List.mem_map, List.mem_filter, decide_eq_true_eq]
  constructor
  · rintro ⟨r, ⟨hmem, hv⟩, hid⟩
    exact ⟨r, hmem, hid, hv⟩
  · rintro ⟨r, hmem, hid, hv⟩
    exact ⟨r, ⟨hmem, hv⟩, hid⟩

/-! ## C10: `partsCompatible` is reflexive and symmetric -/

/-- C10: the part-compatibility test is reflexive (including on empty values)
and symmetric in its two part-name arguments, for every part type and row
context. -/
theorem partsCompatible_refl_and_symm (pt : PartType) (row : Row) :
    (∀ p, partsCompatible pt p p row = true) ∧
    (∀ p1 p2, partsCompatible pt p1 p2 row = partsCompatible pt p2 p1 row) := by
  constructor
  · intro p
    simp [partsCompatible]
  · intro p1 p2
    simp only [partsCompatible]
    refine if_congr (or_congr eq_comm and_comm) rfl ?_
    refine if_congr or_comm rfl ?_
    refine if_congr (and_congr_right fun _ => by rw [bothInList_comm]) rfl ?_
    refine if_congr (and_congr_right fun _ => and_congr_right fun _ => by rw [bothInList_comm])
      rfl ?_
    refine if_congr (and_congr_right fun _ => and_congr_right fun _ => by rw [bothInList_comm])
      rfl ?_
    refine if_congr (and_congr_right fun _ => by rw [bothInList_comm]) rfl ?_
    refine if_congr (and_congr_right fun _ => by rw [bothInList_comm]) rfl ?_
    refine if_congr (and_congr_right fun _ => by rw [bothInList_comm]) rfl ?_
    exact Bool.or_comm _ _

/-- One-step unfolding of `isAltLoincAux` (stated once so later proofs can
rewrite without looping on the recursive occurrence). -/
theorem isAltLoincAux_unfold (row : Row) (src : PartType → Option (List String))
    (cand : PartType → List String) (fuel level : Nat) :
    isAltLoincAux row src cand fuel level =
      (let s := scanGo row src cand level PartTypeList 0 [] []
       if s.1 = 0 then ⟨true, s.2.2⟩
       else if level < 3 ∧ (s.1 = 1 ∧ (PartType.METHOD ∈ s.2.1 ∨ PartType.CLASS ∈ s.2.1) ∨
           s.1 = 2 ∧ PartType.METHOD ∈ s.2.1 ∧ PartType.CLASS ∈ s.2.1) then
         match fuel with
         | 0 => ⟨false, []⟩
         | fuel' + 1 => isAltLoincAux row src cand fuel' (level + 1)
       else ⟨false, []⟩) := by
  cases fuel <;> rfl

/-- Specification of the scanning loop of `isAltLoinc`: its count is the
mismatch count capped at 3 (the break), its mismatch list extends the
accumulator with the mismatching part types while no break occurs, and when
every part matches its tag list is the concatenation of all pushed tags. -/
theorem scanGo_spec (row : Row) (src : PartType → Option (List String))
    (cand : PartType → List String) (level : Nat) :
    ∀ (pts : List PartType) (count : Nat) (mis : List PartType) (rel : List String),
      count ≤ 2 →
      (scanGo row src cand level pts count mis rel).1 =
          min (count + (pts.filter (fun pt => !(matchPart row pt src cand level).1)).length) 3
      ∧ (count + (pts.filter (fun pt => !(matchPart row pt src cand level).1)).length ≤ 2 →
          (scanGo row src cand level pts count mis rel).2.1 =
            mis ++ pts.filter (fun pt => !(matchPart row pt src cand level).1))
      ∧ ((pts.filter (fun pt => !(matchPart row pt src cand level).1)) = [] →
          (scanGo row src cand level pts count mis rel).2.2 =
            rel ++ (pts.map (fun pt => (matchPart row pt src cand level).2)).flatten) := by
  intro pts
  induction pts with
  | nil =>
    intro count mis rel hc
    refine ⟨by simp [scanGo]; omega, by simp [scanGo], by simp [scanGo]⟩
  | cons pt rest ih =>
    intro count mis rel hc
    by_cases hm : (matchPart row pt src cand level).1 = true
    · have hfilter : (pt :: rest).filter (fun q => !(matchPart row q src cand level).1) =
          rest.filter (fun q => !(matchPart row q src cand level).1) := by
        simp [List.filter_cons, hm]
      have hstep : scanGo row src cand level (pt :: rest) count mis rel =
          scanGo row src cand level rest count mis
            (rel ++ (matchPart row pt src cand level).2) := by
        simp [scanGo, hm]
      obtain ⟨ih1, ih2, ih3⟩ := ih count mis (rel ++ (matchPart row pt src cand level).2) hc
      refine ⟨by rw [hstep, hfilter] at *; exact ih1, ?_, ?_⟩
      · intro hle
        rw [hfilter] at hle ⊢
        rw [hstep]
        exact ih2 hle
      · intro hnil
        rw [hfilter] at hnil
        rw [hstep, ih3 hnil]
        simp [List.append_assoc]
    · have hmf : (matchPart row pt src cand level).1 = false := by
        revert hm; cases (matchPart row pt src cand level).1 <;> simp
      have hfilter : (pt :: rest).filter (fun q => !(matchPart row q src cand level).1) =
          pt :: rest.filter (fun q => !(matchPart row q src cand level).1) := by
        simp [List.filter_cons, hmf]
      by_cases hbreak : 2 < count + 1
      · have hcount : count = 2 := by omega
        have hstep : scanGo row src cand level (pt :: rest) count mis rel =
            (count + 1, mis ++ [pt], rel ++ (matchPart row pt src cand level).2) := by
          simp [scanGo, hmf, hbreak]
        refine ⟨?_, ?_, ?_⟩
        · rw [hstep, hfilter]
          simp [hcount]
          omega
        · intro hle
          rw [hfilter] at hle
          simp at hle
          omega
        · intro hnil
          rw [hfilter] at hnil
          simp at hnil
      · have hc1 : count + 1 ≤ 2 := by omega
        have hstep : scanGo row src cand level (pt :: rest) count mis rel =
            scanGo row src cand level rest (count + 1) (mis ++ [pt])
              (rel ++ (matchPart row pt src cand level).2) := by
          simp [scanGo, hmf, hbreak]
        obtain ⟨ih1, ih2, ih3⟩ :=
          ih (count + 1) (mis ++ [pt]) (rel ++ (matchPart row pt src cand level).2) hc1
        refine ⟨?_, ?_, ?_⟩
        · rw [hstep, hfilter, ih1]
          simp
          omega
        · intro hle
          rw [hfilter] at hle ⊢
          simp only [List.length_cons] at hle
          rw [hstep, ih2 (by omega)]
          simp
        · intro hnil
          rw [hfilter] at hnil
          simp at hnil

/-- `matchPart` is monotone in the relaxation level: a part accepted at some
level is accepted at every higher level. -/
theorem matchPart_mono (row : Row) (src : PartType → Option (List String))
    (cand : PartType → List String) (pt : PartType) (l l' : Nat) (hl : l ≤ l')
    (hm : (matchPart row pt src cand l).1 = true) :
    (matchPart row pt src cand l').1 = true := by
  cases hsrc : src pt with
  | none => simp [matchPart, hsrc]
  | some srcList =>
    simp only [matchPart, hsrc] at hm ⊢
    by_cases hexact : (srcList = [] ∧ cand pt = []) ∨ ∃ e ∈ srcList, e ∈ cand pt
    · simp [hexact]
    · rw [if_neg hexact] at hm ⊢
      cases pt with
      | METHOD =>
        by_cases hcand : cand PartType.METHOD = []
        · by_cases h0 : 0 < l
          · simp [hcand, show 0 < l' by omega]
          · have hl0 : l = 0 := by omega
            subst hl0
            simp [hcand] at hm
        · by_cases h1 : 1 < l
          · have h1' : 1 < l' := by omega
            simp only [if_neg (by tauto : ¬ (0 < l' ∧ cand PartType.METHOD = [])), h1',
              if_pos trivial]
          · simp only [if_neg (by tauto : ¬ (0 < l ∧ cand PartType.METHOD = [])),
              if_neg h1] at hm
            exact absurd hm (by simp)
      | CLASS =>
        by_cases h2 : 2 < l
        · simp [show 2 < l' by omega]
        · simp [h2] at hm
      | COMPONENT => exact hm
      | SYSTEM => exact hm
      | PROPERTY => exact hm
      | TIME => exact hm
      | SCALE => exact hm

/-- If no part mismatches at some level, none mismatches at any higher
level. -/
theorem mismatchParts_nil_mono (row : Row) (src : PartType → Option (List String))
    (cand : PartType → List String) (l l' : Nat) (hl : l ≤ l')
    (h : mismatchParts row src cand l = []) : mismatchParts row src cand l' = [] := by
  rw [mismatchParts, List.filter_eq_nil_iff] at h ⊢
  intro pt hpt
  have := h pt hpt
  have hm : (matchPart row pt src cand l).1 = true := by
    revert this; cases (matchPart row pt src cand l).1 <;> simp
  have := matchPart_mono row src cand pt l l' hl hm
  simp [this]

/-- With no mismatching part, `isAltLoinc` reports a match (carrying the tags
pushed by the per-part tests). -/
theorem isAltLoinc_matched_of_nil (row : Row) (src : PartType → Option (List String))
    (cand : PartType → List String) (level : Nat)
    (h : mismatchParts row src cand level = []) :
    (isAltLoinc row src cand level).matched = true := by
  have hs := (scanGo_spec row src cand level PartTypeList 0 [] [] (by norm_num)).1
  rw [mismatchParts] at h
  rw [h] at hs
  simp only [List.length_nil, Nat.add_zero, Nat.zero_min] at hs
  rw [isAltLoinc, isAltLoincAux_unfold]
  simp [hs]

/-- When the scan finds an escalatable mismatch pattern below level 3,
`isAltLoinc` at this level equals `isAltLoinc` at the next level. -/
theorem isAltLoinc_escalate (row : Row) (src : PartType → Option (List String))
    (cand : PartType → List String) (level : Nat) (h3 : level < 3)
    (hcond : (scanGo row src cand level PartTypeList 0 [] []).1 = 1 ∧
        (PartType.METHOD ∈ (scanGo row src cand level PartTypeList 0 [] []).2.1 ∨
         PartType.CLASS ∈ (scanGo row src cand level PartTypeList 0 [] []).2.1) ∨
      (scanGo row src cand level PartTypeList 0 [] []).1 = 2 ∧
        PartType.METHOD ∈ (scanGo row src cand level PartTypeList 0 [] []).2.1 ∧
        PartType.CLASS ∈ (scanGo row src cand level PartTypeList 0 [] []).2.1) :
    isAltLoinc row src cand level = isAltLoinc row src cand (level + 1) := by
  have hne : (scanGo row src cand level PartTypeList 0 [] []).1 ≠ 0 := by
    rcases hcond with ⟨h1, _⟩ | ⟨h2, _⟩ <;> omega
  have hfuel : 3 - level = (2 - level) + 1 := by omega
  rw [isAltLoinc, hfuel, isAltLoincAux_unfold]
  simp only [hne, if_false, if_neg hne, if_pos (And.intro h3 hcond)]
  rw [isAltLoinc, show 3 - (level + 1) = 2 - level from by omega]

/-- When the scan finds a non-escalatable non-empty mismatch pattern,
`isAltLoinc` rejects. -/
theorem isAltLoinc_reject (row : Row) (src : PartType → Option (List String))
    (cand : PartType → List String) (level : Nat)
    (hne : (scanGo row src cand level PartTypeList 0 [] []).1 ≠ 0)
    (hcond : ¬ (level < 3 ∧
      ((scanGo row src cand level PartTypeList 0 [] []).1 = 1 ∧
        (PartType.METHOD ∈ (scanGo row src cand level PartTypeList 0 [] []).2.1 ∨
         PartType.CLASS ∈ (scanGo row src cand level PartTypeList 0 [] []).2.1) ∨
      (scanGo row src cand level PartTypeList 0 [] []).1 = 2 ∧
        PartType.METHOD ∈ (scanGo row src cand level PartTypeList 0 [] []).2.1 ∧
        PartType.CLASS ∈ (scanGo row src cand level PartTypeList 0 [] []).2.1))) :
    isAltLoinc row src cand level = ⟨false, []⟩ := by
  rw [isAltLoinc, isAltLoincAux_unfold]
  simp only [hne, if_neg hne, if_neg hcond]
  simp


/-- `PartTypeList` has no duplicates. -/
theorem partTypeList_nodup : PartTypeList.Nodup := by decide

/-- Two distinct part types each equal to METHOD or CLASS are exactly the pair
METHOD, CLASS. -/
theorem pair_method_class (a b : PartType) (hab : a ≠ b)
    (ha : a = .METHOD ∨ a = .CLASS) (hb : b = .METHOD ∨ b = .CLASS) :
    (a = .METHOD ∧ b = .CLASS) ∨ (a = .CLASS ∧ b = .METHOD) := by
  cases a <;> cases b <;> simp_all

/-! ## C2: the tiered dispatch of the matcher -/

/-- C2: at every relaxation level, a candidate with zero mismatching part
types is accepted; a candidate with one or two mismatches all confined to
METHOD/CLASS is retried at the next level while the level is below 3; and a
candidate with more than two mismatches, or with a mismatch pattern not
confined to METHOD/CLASS, is rejected outright with no escalation. -/
theorem isAltLoinc_tiered_dispatch (row : Row) (src : PartType → Option (List String))
    (cand : PartType → List String) (level : Nat) :
    (mismatchParts row src cand level = [] →
      (isAltLoinc row src cand level).matched = true)
  ∧ (1 ≤ (mismatchParts row src cand level).length →
      (mismatchParts row src cand level).length ≤ 2 →
      (∀ pt ∈ mismatchParts row src cand level, pt = .METHOD ∨ pt = .CLASS) →
      level < 3 →
      isAltLoinc row src cand level = isAltLoinc row src cand (level + 1))
  ∧ ((2 < (mismatchParts row src cand level).length ∨
      ∃ pt ∈ mismatchParts row src cand level, ¬ (pt = .METHOD ∨ pt = .CLASS)) →
      isAltLoinc row src cand level = ⟨false, []⟩) := by
  have hnodup : (mismatchParts row src cand level).Nodup :=
    partTypeList_nodup.filter _
  have hs1 := (scanGo_spec row src cand level PartTypeList 0 [] [] (by norm_num)).1
  have hs2 := (scanGo_spec row src cand level PartTypeList 0 [] [] (by norm_num)).2.1
  rw [show (PartTypeList.filter (fun pt => !(matchPart row pt src cand level).1)) =
      mismatchParts row src cand level from rfl] at hs1 hs2
  simp only [Nat.zero_add] at hs1 hs2
  refine ⟨fun h => isAltLoinc_matched_of_nil row src cand level h, ?_, ?_⟩
  · intro h1 h2 hconf h3
    have hmis : (scanGo row src cand level PartTypeList 0 [] []).2.1 =
        mismatchParts row src cand level := by simpa using hs2 h2
    have hcount : (scanGo row src cand level PartTypeList 0 [] []).1 =
        (mismatchParts row src cand level).length := by
      rw [hs1]; omega
    refine isAltLoinc_escalate row src cand level h3 ?_
    rcases hmp : mismatchParts row src cand level with _ | ⟨a, _ | ⟨b, _ | _⟩⟩
    · rw [hmp] at h1; simp at h1
    · rw [hmp] at hcount hmis hconf
      left
      refine ⟨by simpa using hcount, ?_⟩
      rw [hmis]
      rcases hconf a (by simp) with h | h
      · left; simp [h]
      · right; simp [h]
    · rw [hmp] at hcount hmis hconf hnodup
      right
      refine ⟨by simpa using hcount, ?_⟩
      have hab : a ≠ b := by
        intro hh
        rw [hh] at hnodup
        simp at hnodup
      rw [hmis]
      rcases pair_method_class a b hab (hconf a (by simp)) (hconf b (by simp)) with
        ⟨hma, hmb⟩ | ⟨hma, hmb⟩
      · exact ⟨by simp [hma], by simp [hmb]⟩
      · exact ⟨by simp [hmb], by simp [hma]⟩
    · rw [hmp] at h2; simp at h2
  · intro hbad
    by_cases hlen : 2 < (mismatchParts row src cand level).length
    · refine isAltLoinc_reject row src cand level ?_ ?_
      · rw [hs1]; omega
      · rintro ⟨_, ⟨hc, _⟩ | ⟨hc, _⟩⟩ <;> (rw [hs1] at hc; omega)
    · rcases hbad with hbad | ⟨pt0, hpt0, hbadpt⟩
      · omega
      · have hle : (mismatchParts row src cand level).length ≤ 2 := by omega
        have hge : 0 < (mismatchParts row src cand level).length :=
          List.length_pos.mpr (fun hh => by rw [hh] at hpt0; simp at hpt0)
        have hmis : (scanGo row src cand level PartTypeList 0 [] []).2.1 =
            mismatchParts row src cand level := by simpa using hs2 hle
        have hcount : (scanGo row src cand level PartTypeList 0 [] []).1 =
            (mismatchParts row src cand level).length := by
          rw [hs1]; omega
        refine isAltLoinc_reject row src cand level (by omega) ?_
        rintro ⟨_, ⟨hc, hm⟩ | ⟨hc, hmM, hmC⟩⟩
        · rw [hcount] at hc
          rw [hmis] at hm
          obtain ⟨pt, hpt⟩ := List.length_eq_one.mp hc
          rw [hpt] at hm
          rw [hpt] at hpt0
          simp only [List.mem_singleton] at hpt0
          subst hpt0
          rcases hm with hm | hm <;> rw [List.mem_singleton] at hm <;>
            exact hbadpt (by rw [← hm]; simp)
        · rw [hcount] at hc
          rw [hmis] at hmM hmC
          rcases hmp : mismatchParts row src cand level with _ | ⟨a, _ | ⟨b, _ | _⟩⟩
          · rw [hmp] at hc; simp at hc
          · rw [hmp] at hc; simp at hc
          · rw [hmp] at hmM hmC hpt0 hnodup
            have hab : a ≠ b := by
              intro hh
              rw [hh] at hnodup
              simp at hnodup
            have haM : PartType.METHOD = a ∨ PartType.METHOD = b := by
              simpa using hmM
            have haC : PartType.CLASS = a ∨ PartType.CLASS = b := by
              simpa using hmC
            have hpt0' : pt0 = a ∨ pt0 = b := by simpa using hpt0
            rcases haM with hM | hM <;> rcases haC with hC | hC
            · exact absurd (hM.trans hC.symm) (by decide)
            · rcases hpt0' with h0 | h0 <;> subst h0
              · exact hbadpt (Or.inl hM.symm)
              · exact hbadpt (Or.inr hC.symm)
            · rcases hpt0' with h0 | h0 <;> subst h0
              · exact hbadpt (Or.inr hC.symm)
              · exact hbadpt (Or.inl hM.symm)
            · exact absurd (hM.trans hC.symm) (by decide)
          · rw [hmp] at hc; simp at hc

/-- C2 witness: a concrete target/candidate pair with a single METHOD mismatch
at level 0 escalates to level 1. -/
theorem isAltLoinc_tiered_dispatch_witness :
    mismatchParts rowW srcMethodOnly candMethodB 0 = [PartType.METHOD] ∧
    isAltLoinc rowW srcMethodOnly candMethodB 0 = isAltLoinc rowW srcMethodOnly candMethodB 1 :=
  ⟨by decide,
   (isAltLoinc_tiered_dispatch rowW srcMethodOnly candMethodB 0).2.1
     (by decide) (by decide) (by decide) (by decide)⟩

/-! ## C3: acceptance is monotone in the relaxation level -/

/-- Acceptance survives one level increase: a zero-mismatch acceptance stays
zero-mismatch (`matchPart` is monotone) and an escalation acceptance is
literally the acceptance at the next level. -/
theorem isAltLoinc_accept_step (row : Row) (src : PartType → Option (List String))
    (cand : PartType → List String) (l : Nat)
    (h : (isAltLoinc row src cand l).matched = true) :
    (isAltLoinc row src cand (l + 1)).matched = true := by
  by_cases hnil : mismatchParts row src cand l = []
  · exact isAltLoinc_matched_of_nil row src cand (l + 1)
      (mismatchParts_nil_mono row src cand l (l + 1) (by omega) hnil)
  · have hs1 := (scanGo_spec row src cand l PartTypeList 0 [] [] (by norm_num)).1
    rw [show (PartTypeList.filter (fun pt => !(matchPart row pt src cand l).1)) =
        mismatchParts row src cand l from rfl] at hs1
    have hlen : (mismatchParts row src cand l).length ≠ 0 := by
      simpa [List.length_eq_zero] using hnil
    have hne : (scanGo row src cand l PartTypeList 0 [] []).1 ≠ 0 := by
      rw [hs1]; omega
    by_cases hcond : l < 3 ∧
        ((scanGo row src cand l PartTypeList 0 [] []).1 = 1 ∧
          (PartType.METHOD ∈ (scanGo row src cand l PartTypeList 0 [] []).2.1 ∨
           PartType.CLASS ∈ (scanGo row src cand l PartTypeList 0 [] []).2.1) ∨
        (scanGo row src cand l PartTypeList 0 [] []).1 = 2 ∧
          PartType.METHOD ∈ (scanGo row src cand l PartTypeList 0 [] []).2.1 ∧
          PartType.CLASS ∈ (scanGo row src cand l PartTypeList 0 [] []).2.1)
    · rw [isAltLoinc_escalate row src cand l hcond.1 hcond.2] at h
      exact h
    · rw [isAltLoinc_reject row src cand l hne hcond] at h
      exact Bool.noConfusion h

/-- C3: relaxation is monotone in the level: a candidate accepted by the
matcher at level `N` is accepted at every level greater than `N`. -/
theorem isAltLoinc_accept_mono (row : Row) (src : PartType → Option (List String))
    (cand : PartType → List String) (N M : Nat) (hNM : N < M)
    (hacc : (isAltLoinc row src cand N).matched = true) :
    (isAltLoinc row src cand M).matched = true := by
  have step : ∀ k, (isAltLoinc row src cand (N + k)).matched = true := by
    intro k
    induction k with
    | zero => simpa using hacc
    | succ k ih => exact isAltLoinc_accept_step row src cand (N + k) ih
  have hM : M = N + (M - N) := by omega
  rw [hM]
  exact step (M - N)

set_option maxRecDepth 4000 in
/-- C3 witness: a concrete candidate accepted at level 0 is accepted at
level 2. -/
theorem isAltLoinc_accept_mono_witness :
    (isAltLoinc rowW srcAllSkip candEmpty 2).matched = true :=
  isAltLoinc_accept_mono rowW srcAllSkip candEmpty 0 2 (by decide) (by decide)

/-! ## C8: SYSTEM relaxation (corrected) -/

/-- C8 counterexample: with a CHEM record, a target SYSTEM of `Urine` and a
candidate SYSTEM of `Ser/Plas`, the candidate's system is compatible with the
class-default specimen (`Ser/Plas`), the exact SYSTEM match fails, yet
`matchPart` rejects the SYSTEM part at every relaxation level, because the
default-specimen acceptance path is dead (`shouldTryDefaultSpecimen` returns
false unconditionally) — contradicting the claim that such a candidate is
still accepted with the tag `matched-with-default-specimen`. -/
theorem matchPart_system_default_specimen_counterexample :
    partsCompatible .SYSTEM (getDefaultSpecimen rowChem) ((candSerPlas .SYSTEM).headD "") rowChem
        = true ∧
    ((srcUrine .SYSTEM).getD []).all
      (fun sys => !(partsCompatible .SYSTEM sys ((candSerPlas .SYSTEM).headD "") rowChem))
        = true ∧
    (matchPart rowChem .SYSTEM srcUrine candSerPlas 0).1 = false ∧
    (matchPart rowChem .SYSTEM srcUrine candSerPlas 1).1 = false ∧
    (matchPart rowChem .SYSTEM srcUrine candSerPlas 2).1 = false ∧
    (matchPart rowChem .SYSTEM srcUrine candSerPlas 3).1 = false := by
  decide

/-- C8 amended: when the SYSTEM part fails the exact rule, the matcher accepts
it only through Synonym-Resolver compatibility with one of the target
profile's SYSTEM values, or (with the tag `specimen-xxx-match-waived`) when
the candidate's system is the `XXX` sentinel; the default-specimen path never
fires, because `shouldTryDefaultSpecimen` always returns false. -/
theorem matchPart_system_amended (row : Row) (src : PartType → Option (List String))
    (cand : PartType → List String) (level : Nat) (ss : List String)
    (hsrc : src .SYSTEM = some ss)
    (hexact : ¬ ((ss = [] ∧ cand .SYSTEM = []) ∨ ∃ e ∈ ss, e ∈ cand .SYSTEM)) :
    shouldTryDefaultSpecimen row = false ∧
    matchPart row .SYSTEM src cand level =
      (if ∃ sys ∈ ss, partsCompatible .SYSTEM sys ((cand .SYSTEM).headD "") row = true
       then (true, [])
       else if (cand .SYSTEM).headD "" = "XXX" then (true, ["specimen-xxx-match-waived"])
       else (false, [])) := by
  refine ⟨rfl, ?_⟩
  simp only [matchPart, hsrc]
  rw [if_neg hexact]
  by_cases hcompat : ∃ sys ∈ ss, partsCompatible .SYSTEM sys ((cand .SYSTEM).headD "") row = true
  · rw [if_pos hcompat, if_pos hcompat]
  · rw [if_neg hcompat, if_neg hcompat,
      if_neg (show ¬ (shouldTryDefaultSpecimen row = true ∧
          partsCompatible .SYSTEM (getDefaultSpecimen row) ((cand .SYSTEM).headD "") row = true)
        from by simp [shouldTryDefaultSpecimen])]

/-- C8 amended witness: the amended rule evaluated on the counterexample
data. -/
theorem matchPart_system_amended_witness :
    shouldTryDefaultSpecimen rowChem = false ∧
    matchPart rowChem .SYSTEM srcUrine candSerPlas 0 =
      (if ∃ sys ∈ (["Urine"] : List String),
          partsCompatible .SYSTEM sys ((candSerPlas .SYSTEM).headD "") rowChem = true
       then (true, [])
       else if (candSerPlas .SYSTEM).headD "" = "XXX" then (true, ["specimen-xxx-match-waived"])
       else (false, [])) :=
  matchPart_system_amended rowChem srcUrine candSerPlas 0 ["Urine"] (by decide) (by decide)

/-! ## C6: the judgment never returns to CORRECT -/

/-- Every pass step preserves "the judgment is not `CORRECT_aj`": the default
assignment's guard is tautologically false, a disagreement check writes only
`INCORRECT_aj`, and the other steps write `INCORRECT_aj`/`FIXED` or nothing. -/
theorem applyPassStep_preserves_not_correct (r : Row) (s : PassStep)
    (h : r.ALGO_JUDGEMENT ≠ "CORRECT_aj") :
    (applyPassStep r s).ALGO_JUDGEMENT ≠ "CORRECT_aj" := by
  cases s with
  | defaultAssign =>
    simpa [applyPassStep, defaultJudgmentAssign, jsStrictEqBoolStr] using h
  | disagreeCheck pt names conf =>
    simp only [applyPassStep, addAlgoIssueAndJudgementIfPartsDisagree]
    split_ifs <;> simp_all [addAlgoMappingIssue]
  | hpfIncorrect => simp [applyPassStep]
  | markFixed => simp [applyPassStep]
  | idle => exact h

/-- C6: within one processing pass, once a record's judgment has been set to
the inconsistent state `INCORRECT_aj`, no sequence of later pass steps ever
sets it back to `CORRECT_aj`. -/
theorem judgment_never_returns_to_correct (row : Row) (steps : List PassStep) :
    (steps.foldl applyPassStep (setJudgment row "INCORRECT_aj")).ALGO_JUDGEMENT
      ≠ "CORRECT_aj" := by
  have general : ∀ (ss : List PassStep) (r : Row), r.ALGO_JUDGEMENT ≠ "CORRECT_aj" →
      (ss.foldl applyPassStep r).ALGO_JUDGEMENT ≠ "CORRECT_aj" := by
    intro ss
    induction ss with
    | nil => intro r h; simpa using h
    | cons s rest ih =>
      intro r h
      exact ih _ (applyPassStep_preserves_not_correct r s h)
  exact general steps _ (by simp [setJudgment])

/-! ## C7: invalid assigned code excludes the record -/

/-- The invalid-code branch of `getInitialRowStatus`. -/
theorem getInitialRowStatus_invalid (catalog : List LoincRec) (r : Row)
    (h : r.LAB_LOINC = "" ∨ (lookupLoinc catalog r.LAB_LOINC).isNone = true) :
    getInitialRowStatus catalog r = "WACKO_INVALID_LOINC" := by
  rw [getInitialRowStatus, if_pos h]

/-- C7: a record whose assigned identifier is empty or not in the catalog gets
the invalid-code exclusion judgment; the inference engine and the rule matcher
never run on it, so processing is independent of them and leaves the cleared
`inferred`, mapping issues and suggestion fields empty.  (`processRow` is a
total function, so no record aborts the batch.) -/
theorem processRow_invalid_code_excluded (catalog : List LoincRec)
    (specimenOf ucumOf : Row → String) (infer applyRules : Row → Row) (row : Row)
    (h : row.LAB_LOINC = "" ∨ (lookupLoinc catalog row.LAB_LOINC).isNone = true) :
    (processRow catalog specimenOf ucumOf infer applyRules row).ALGO_JUDGEMENT
        = "WACKO_INVALID_LOINC"
    ∧ (processRow catalog specimenOf ucumOf infer applyRules row).inferred = (fun _ => none)
    ∧ (processRow catalog specimenOf ucumOf infer applyRules row).ALGO_MAPPING_ISSUES = []
    ∧ (processRow catalog specimenOf ucumOf infer applyRules row).SGG_LOINC = ""
    ∧ (processRow catalog specimenOf ucumOf infer applyRules row).SGG_LONG_COMMON_NAME = ""
    ∧ (processRow catalog specimenOf ucumOf infer applyRules row).SGG_OTHER = ""
    ∧ processRow catalog specimenOf ucumOf infer applyRules row =
        processRow catalog specimenOf ucumOf (fun r => r) (fun r => r) row := by
  have hJ : (preparedRow catalog specimenOf ucumOf row).ALGO_JUDGEMENT
      = "WACKO_INVALID_LOINC" := getInitialRowStatus_invalid catalog _ h
  have hEx : isExcludeStatus (preparedRow catalog specimenOf ucumOf row) = true := by
    simp [isExcludeStatus, hJ]
  have hres : ∀ (f g : Row → Row), processRow catalog specimenOf ucumOf f g row =
      preparedRow catalog specimenOf ucumOf row := by
    intro f g
    simp only [processRow]
    rw [if_pos (show isExcludeStatus (preparedRow catalog specimenOf ucumOf row) = true
      from hEx)]
    rw [if_pos (show isExcludeStatus (preparedRow catalog specimenOf ucumOf row) = true
      from hEx)]
  rw [hres infer applyRules, hres (fun r => r) (fun r => r)]
  exact ⟨hJ, rfl, rfl, rfl, rfl, rfl, rfl⟩

/-- C7 witness: a concrete record with an unknown assigned code processed
against the one-entry catalog, with inference and matching instantiated by
functions that would wreck the row if they ran. -/
theorem processRow_invalid_code_excluded_witness :
    (processRow catGlucose (fun _ => "") (fun _ => "")
        (fun r => setJudgment r "CORRECT_aj") (fun r => setJudgment r "FIXED")
        { rowGlu with LAB_LOINC := "9999-9" }).ALGO_JUDGEMENT = "WACKO_INVALID_LOINC" :=
  (processRow_invalid_code_excluded catGlucose (fun _ => "") (fun _ => "")
    (fun r => setJudgment r "CORRECT_aj") (fun r => setJudgment r "FIXED")
    { rowGlu with LAB_LOINC := "9999-9" } (by decide)).1

/-! ## C9: inferred components must exist in the catalog -/

/-- `addAlgoIssueAndJudgementIfPartsDisagree` never touches the inferred
parts. -/
theorem addAlgoIssue_preserves_inferred (r : Row) (pt : PartType) (names : List String)
    (conf : ℚ) (absenceOK : Bool) :
    (addAlgoIssueAndJudgementIfPartsDisagree r pt names conf absenceOK).1.inferred
      = r.inferred := by
  simp only [addAlgoIssueAndJudgementIfPartsDisagree]
  split_ifs <;> simp [addAlgoMappingIssue]

/-- A name present after adding a single inferred part name was either already
present or is that name. -/
theorem mem_addInferred_single (row : Row) (pt : PartType) (c t v : String)
    (hv : v ∈ inferredNames (addInferredLoincParts row pt [c] t) pt) :
    v ∈ inferredNames row pt ∨ v = c := by
  rw [addInferredLoincParts, if_neg (show ([c] : List String) ≠ [] by simp)] at hv
  simp only [List.foldl_cons, List.foldl_nil, inferredNames] at hv ⊢
  simp only [if_true, Option.getD_some] at hv
  split at hv
  · exact Or.inl hv
  · simp only [List.mem_append, List.mem_singleton] at hv
    exact hv

/-- C9: every COMPONENT value added to a record's inferred attributes by the
component-modifier inference exists as the COMPONENT value of some catalog
entry, and a candidate replacement component is discarded (the row is left
unchanged) when no catalog entry carries it. -/
theorem inferComponentByModifier_only_catalog_components (catalog : List LoincRec)
    (mods : List ComponentModifier) (igxAdjust : Row → AdjStatus) (row : Row) :
    (∀ v, v ∈ inferredNames (inferComponentByModifier catalog mods igxAdjust row) .COMPONENT →
      v ∈ inferredNames row .COMPONENT ∨ ∃ r ∈ catalog, r.part .COMPONENT = v)
  ∧ (∀ c, (getAdjustedComponentByModifier mods igxAdjust row).component = some c →
      hasLoincWithPart catalog .COMPONENT c = false →
      inferComponentByModifier catalog mods igxAdjust row = row) := by
  constructor
  · intro v hv
    rw [inferComponentByModifier] at hv
    cases hcomp : (getAdjustedComponentByModifier mods igxAdjust row).component with
    | none =>
      rw [hcomp] at hv
      exact Or.inl hv
    | some c =>
      rw [hcomp] at hv
      dsimp only at hv
      by_cases hhas : hasLoincWithPart catalog .COMPONENT c = true
      · rw [if_pos hhas] at hv
        rw [inferredNames, addAlgoIssue_preserves_inferred] at hv
        rcases mem_addInferred_single row .COMPONENT c "inferred" v hv with hold | hc
        · exact Or.inl hold
        · right
          rw [hc]
          exact (hasLoincWithPart_iff catalog .COMPONENT c).mp hhas
      · rw [if_neg hhas] at hv
        exact Or.inl hv
  · intro c hcomp hfalse
    rw [inferComponentByModifier, hcomp]
    dsimp only
    rw [if_neg (by simp [hfalse])]

/-- C9 witness: a candidate component absent from the catalog is discarded. -/
theorem inferComponentByModifier_only_catalog_components_witness :
    inferComponentByModifier catGlucose [] igxZzz rowGlu = rowGlu :=
  (inferComponentByModifier_only_catalog_components catGlucose [] igxZzz rowGlu).2
    "Zzz" (by decide) (by decide)

/-! ## C5: selection soundness -/

/-- Deduplication only keeps elements of the input list. -/
theorem mem_dedupKeepFirst (seen : List String) (l : List MatchInfo) (m : MatchInfo)
    (hm : m ∈ dedupKeepFirst seen l) : m ∈ l := by
  induction l generalizing seen with
  | nil => simp [dedupKeepFirst] at hm
  | cons x xs ih =>
    rw [dedupKeepFirst] at hm
    split_ifs at hm with hx
    · exact List.mem_cons_of_mem x (ih _ hm)
    · rcases List.mem_cons.mp hm with h | h
      · exact h ▸ List.mem_cons_self x xs
      · exact List.mem_cons_of_mem x (ih _ h)

/-- Deduplication produces pairwise-distinct LOINC numbers, none of which were
already seen. -/
theorem dedupKeepFirst_keys (l : List MatchInfo) :
    ∀ seen : List String,
      ((dedupKeepFirst seen l).map (fun m => m.LOINC_NUM)).Nodup ∧
      ∀ k ∈ (dedupKeepFirst seen l).map (fun m => m.LOINC_NUM), k ∉ seen := by
  induction l with
  | nil => intro seen; simp [dedupKeepFirst]
  | cons x xs ih =>
    intro seen
    rw [dedupKeepFirst]
    split_ifs with hx
    · exact ih seen
    · obtain ⟨ihnodup, ihseen⟩ := ih (x.LOINC_NUM :: seen)
      constructor
      · rw [List.map_cons, List.nodup_cons]
        refine ⟨fun hmem => ?_, ihnodup⟩
        exact (ihseen _ hmem) (by simp)
      · intro k hk
        rcases List.mem_cons.mp hk with h | h
        · subst h
          intro hcontra
          exact hx (by simpa using List.elem_iff.mpr hcontra)
        · intro hcontra
          exact (ihseen k h) (by simp [hcontra])

/-- C5: whenever the selector returns a primary and alternates, the primary's
score is at least every alternate's score, and no LOINC number repeats across
primary and alternates. -/
theorem selectBestMatch_sound (row : Row) (ms : List MatchInfo) (best : MatchInfo)
    (rest : List MatchInfo) (h : selectBestMatch row ms = some (best, rest)) :
    (∀ m ∈ rest, m.score ≤ best.score) ∧
    ((best :: rest).map (fun m => m.LOINC_NUM)).Nodup := by
  letI : DecidableRel (fun a b : MatchInfo => b.score ≤ a.score) :=
    fun _ _ => Classical.propDecidable _
  haveI htotal : IsTotal MatchInfo (fun a b : MatchInfo => b.score ≤ a.score) :=
    ⟨fun a b => le_total b.score a.score⟩
  haveI htrans : IsTrans MatchInfo (fun a b : MatchInfo => b.score ≤ a.score) :=
    ⟨fun _ _ _ hab hbc => le_trans hbc hab⟩
  rcases ms with _ | ⟨m1, _ | ⟨m2, tl⟩⟩
  · simp [selectBestMatch] at h
  · rw [selectBestMatch] at h
    simp only [Option.some.injEq, Prod.mk.injEq] at h
    obtain ⟨hb, hr⟩ := h
    subst hb
    subst hr
    simp
  · rw [selectBestMatch] at h
    cases hs : ((m1 :: m2 :: tl).map (fun m => { m with score := computeScore row m })
        |>.insertionSort (fun a b => b.score ≤ a.score)) with
    | nil =>
      rw [hs] at h
      simp at h
    | cons c0 rest' =>
      rw [hs] at h
      simp only [Option.some.injEq, Prod.mk.injEq] at h
      obtain ⟨hb, hr⟩ := h
      subst hb
      subst hr
      have hsorted : List.Sorted (fun a b : MatchInfo => b.score ≤ a.score)
          (((m1 :: m2 :: tl).map (fun m => { m with score := computeScore row m }))
            |>.insertionSort (fun a b => b.score ≤ a.score)) :=
        List.sorted_insertionSort _ _
      rw [hs] at hsorted
      have hhead := List.rel_of_sorted_cons hsorted
      constructor
      · intro m hm
        exact hhead m (mem_dedupKeepFirst _ _ m hm)
      · obtain ⟨hnodup, hseen⟩ := dedupKeepFirst_keys rest' [c0.LOINC_NUM]
        rw [List.map_cons, List.nodup_cons]
        refine ⟨fun hmem => ?_, hnodup⟩
        exact (hseen _ hmem) (by simp)

/-- C5 witness: the selector evaluated on a single accepted candidate. -/
theorem selectBestMatch_sound_witness :
    (∀ m ∈ ([] : List MatchInfo), m.score ≤ matchAllGlucose.score) ∧
    (([matchAllGlucose] : List MatchInfo).map (fun m => m.LOINC_NUM)).Nodup :=
  selectBestMatch_sound rowAllGlucose [matchAllGlucose] matchAllGlucose [] rfl

/-! ## C4: the score formula -/

/-- Every part type occurs in `PartTypeList`. -/
theorem mem_partTypeList (pt : PartType) : pt ∈ PartTypeList := by
  cases pt <;> decide

/-- Pull a conditional subtraction out of an `if`. -/
theorem ite_sub_right (c : Prop) [Decidable c] (s x : ℝ) :
    (if c then s - x else s) = s - (if c then x else 0) := by
  split_ifs <;> ring

/-- Pull a conditional addition out of an `if`. -/
theorem ite_add_right (c : Prop) [Decidable c] (s x : ℝ) :
    (if c then s + x else s) = s + (if c then x else 0) := by
  split_ifs <;> ring

/-- Pull a conditional addition out of two nested `if`s. -/
theorem ite_ite_add_right (c d : Prop) [Decidable c] [Decidable d] (s x : ℝ) :
    (if c then (if d then s + x else s) else s) = s + (if c ∧ d then x else 0) := by
  by_cases h1 : c
  · by_cases h2 : d
    · rw [if_pos h1, if_pos h2, if_pos (And.intro h1 h2)]
    · rw [if_pos h1, if_neg h2, if_neg (fun hc => h2 hc.2)]
      ring
  · by_cases h2 : d
    · rw [if_neg h1, if_neg (fun hc => h1 hc.1)]
      ring
    · rw [if_neg h1, if_neg (fun hc => h1 hc.1)]
      ring

/-- The conditional relaxation penalty equals the unconditional one, because
`0 ^ 0.25 = 0`. -/
theorem relax_penalty_eq (m : MatchInfo) :
    (if m.relaxations ≠ [] then (25 : ℝ) * ((m.relaxations.length : ℝ) ^ (0.25 : ℝ)) else 0)
      = 25 * ((m.relaxations.length : ℝ) ^ (0.25 : ℝ)) := by
  split_ifs with h
  · rfl
  · have hnil : m.relaxations = [] := not_not.mp h
    rw [hnil]
    rw [show ((([] : List String).length : ℝ)) = 0 by simp,
      Real.zero_rpow (by norm_num : (0.25 : ℝ) ≠ 0)]
    ring

/-- When every part matches exactly (no tags), the scan is the identity on its
accumulators. -/
theorem scanGo_all_matched (row : Row) (src : PartType → Option (List String))
    (cand : PartType → List String) (level : Nat) :
    ∀ (pts : List PartType) (count : Nat) (mis : List PartType) (rel : List String),
      (∀ pt ∈ pts, matchPart row pt src cand level = (true, [])) →
      scanGo row src cand level pts count mis rel = (count, mis, rel) := by
  intro pts
  induction pts with
  | nil => intro count mis rel _; rfl
  | cons pt rest ih =>
    intro count mis rel hall
    have h0 := hall pt (by simp)
    rw [scanGo, h0]
    simp only [List.append_nil]
    exact ih count mis rel (fun q hq => hall q (by simp [hq]))

/-- When every part matches exactly (no tags), `isAltLoinc` reports a match
with no relaxations, at every level. -/
theorem isAltLoinc_all_matched (row : Row) (src : PartType → Option (List String))
    (cand : PartType → List String) (level : Nat)
    (h : ∀ pt, matchPart row pt src cand level = (true, [])) :
    isAltLoinc row src cand level = ⟨true, []⟩ := by
  have hscan := scanGo_all_matched row src cand level PartTypeList 0 [] []
    (fun pt _ => h pt)
  rw [isAltLoinc, isAltLoincAux_unfold]
  simp [hscan]


/-- Unfolding of the non-skip branches of `targetTermParts`. -/
theorem targetTermParts_some_eq (row : Row) (refParts : PartType → List String) (pt : PartType)
    (srcList : List String) (hsrc : targetTermParts row refParts pt = some srcList) :
    (getAltPartsFromInferred row pt = none ∧ srcList = addPartSynonyms pt (refParts pt)) ∨
    (∃ l, getAltPartsFromInferred row pt = some l ∧ srcList = addPartSynonyms pt l) := by
  rw [targetTermParts] at hsrc
  by_cases hg : pt = PartType.SYSTEM ∧ getAltPartsFromInferred row PartType.SYSTEM = none ∧
      row.part PartType.SYSTEM = "XXX"
  · rw [if_pos hg] at hsrc
    exact absurd hsrc (by simp)
  · rw [if_neg hg] at hsrc
    cases hga : getAltPartsFromInferred row pt with
    | none =>
      rw [hga] at hsrc
      simp only [Option.some.injEq] at hsrc
      exact Or.inl ⟨rfl, hsrc.symm⟩
    | some l =>
      rw [hga] at hsrc
      simp only [Option.some.injEq] at hsrc
      exact Or.inr ⟨l, rfl, hsrc.symm⟩

/-- If the selector's per-part test accepts a candidate part against the row's
inferred/current attributes, then the matcher's exact rule accepts that part
against the target profile built from the same row, pushing no relaxation tag.
The hypotheses state the program's own invariants: inferred name lists are
never empty, candidate parts come from catalog records (zero or one non-empty
value), and the reference parts are the row's copied parts. -/
theorem matchPart_exact_of_selMatched (row : Row) (m : MatchInfo)
    (refParts : PartType → List String) (level : Nat) (pt : PartType)
    (hNames : ∀ info : InferredInfo, row.inferred pt = some info → info.names ≠ [])
    (hCand : m.part pt = [] ∨ ∃ w, w ≠ "" ∧ m.part pt = [w])
    (hRef : refParts pt = if row.part pt = "" then [] else [row.part pt])
    (hsel : selPartMatched row m pt = true) :
    matchPart row pt (targetTermParts row refParts) m.part level = (true, []) := by
  cases hsrc : targetTermParts row refParts pt with
  | none => simp [matchPart, hsrc]
  | some srcList =>
    suffices hcond : (srcList = [] ∧ m.part pt = []) ∨ ∃ e ∈ srcList, e ∈ m.part pt by
      simp only [matchPart, hsrc]
      rw [if_pos hcond]
    cases hinf : row.inferred pt with
    | none =>
      have hga : getAltPartsFromInferred row pt = none := by
        simp [getAltPartsFromInferred, hinf]
      have hsrc' : srcList = addPartSynonyms pt (refParts pt) := by
        rcases targetTermParts_some_eq row refParts pt srcList hsrc with ⟨_, h⟩ | ⟨l, hl, _⟩
        · exact h
        · rw [hga] at hl; exact absurd hl (by simp)
      simp only [selPartMatched, hinf, Bool.or_eq_true, Bool.and_eq_true,
        decide_eq_true_eq] at hsel
      rcases hsel with ⟨hrow, hfalsy⟩ | hb
      · -- empty row part with an empty candidate part
        have hmnil : m.part pt = [] := by
          rcases hCand with hnil | ⟨w, hw, hwEq⟩
          · exact hnil
          · rw [hwEq] at hfalsy
            simp at hfalsy
            exact absurd hfalsy hw
        left
        refine ⟨?_, hmnil⟩
        rw [hsrc', hRef, if_pos hrow]
        rfl
      · -- the candidate head equals the row's part value
        rcases hCand with hnil | ⟨w, hw, hwEq⟩
        · rw [hnil] at hb
          simp at hb
        · rw [hwEq] at hb
          simp only [List.head?_cons, Option.some.injEq] at hb
          have hrow : row.part pt ≠ "" := by rw [← hb]; exact hw
          right
          refine ⟨row.part pt, ?_, ?_⟩
          · rw [hsrc', hRef, if_neg hrow]
            exact mem_addPartSynonyms_self pt _ _ (by simp)
          · rw [hwEq, hb]
            simp
    | some info =>
      have hne : info.names ≠ [] := hNames info hinf
      simp only [selPartMatched, hinf] at hsel
      rw [if_pos hne] at hsel
      obtain ⟨x, hx, hxhead⟩ := List.any_eq_true.mp hsel
      have hxhead' : (m.part pt).head? = some x := by simpa using hxhead
      rcases hCand with hnil | ⟨w, hw, hwEq⟩
      · rw [hnil] at hxhead'
        simp at hxhead'
      · have hxw : x = w := by
          rw [hwEq] at hxhead'
          simp only [List.head?_cons, Option.some.injEq] at hxhead'
          exact hxhead'.symm
        have hwmem : w ∈ info.names := hxw ▸ hx
        by_cases heq : info.names = [row.part pt]
        · have hga : getAltPartsFromInferred row pt = none := by
            simp [getAltPartsFromInferred, hinf, heq]
          have hwrow : w = row.part pt := by
            rw [heq] at hwmem
            simpa using hwmem
          have hsrc' : srcList = addPartSynonyms pt (refParts pt) := by
            rcases targetTermParts_some_eq row refParts pt srcList hsrc with ⟨_, h⟩ | ⟨l, hl, _⟩
            · exact h
            · rw [hga] at hl; exact absurd hl (by simp)
          right
          refine ⟨w, ?_, by rw [hwEq]; simp⟩
          rw [hsrc', hRef, if_neg (by rw [← hwrow]; exact hw), hwrow]
          exact mem_addPartSynonyms_self pt _ _ (by simp)
        · have hga : getAltPartsFromInferred row pt = some info.names := by
            simp [getAltPartsFromInferred, hinf, heq]
          have hsrc' : srcList = addPartSynonyms pt info.names := by
            rcases targetTermParts_some_eq row refParts pt srcList hsrc with ⟨hl, _⟩ | ⟨l, hl, h⟩
            · rw [hga] at hl; exact absurd hl (by simp)
            · rw [hga] at hl
              simp only [Option.some.injEq] at hl
              rw [h, hl]
          right
          refine ⟨w, ?_, by rw [hwEq]; simp⟩
          rw [hsrc']
          exact mem_addPartSynonyms_self pt _ _ hwmem

/-- Collapse two nested conditional bonuses into a conjunction. -/
theorem ite_ite_collapse (c d : Prop) [Decidable c] [Decidable d] (x : ℝ) :
    (if c then (if d then x else 0) else 0) = (if c ∧ d then x else 0) := by
  by_cases h1 : c
  · by_cases h2 : d
    · rw [if_pos h1, if_pos h2, if_pos (And.intro h1 h2)]
    · rw [if_pos h1, if_neg h2, if_neg (fun hc => h2 hc.2)]
  · rw [if_neg h1, if_neg (fun hc => h1 hc.1)]

/-- C4: every candidate's computed score equals 50, minus
`25 * (number of relaxation tags) ^ 0.25`, minus 20 when deprecated and 10
when discouraged, plus 35 when the unspecified-system waiver applies (the
row's system is the `XXX` sentinel with no inferred system) and the
candidate's system is independently compatible with the declared specimen hint
or the class-default specimen, plus 10 when the record's raw unit literally
equals the candidate's example canonical unit, plus 50 when the candidate
matches every one of the seven attribute types; and — supporting the "zero
relaxation" reading of the all-parts bonus — a candidate matching all seven
attribute types is accepted by the matcher against the row's own target
profile with no relaxation tags at all, under the program's invariants
(inferred name lists non-empty, candidate parts from catalog records,
reference parts equal to the row's copied parts). -/
theorem computeScore_formula (row : Row) (m : MatchInfo) (refParts : PartType → List String)
    (level : Nat) :
    computeScore row m =
      50 - 25 * ((m.relaxations.length : ℝ) ^ (0.25 : ℝ))
        - (if m.STATUS = "DEPRECATED" then (20 : ℝ) else 0)
        - (if m.STATUS = "DISCOURAGED" then (10 : ℝ) else 0)
        + (if (row.part .SYSTEM = "XXX" ∧ (row.inferred .SYSTEM).isNone = true) ∧
              (partsCompatible .SYSTEM ((m.part .SYSTEM).headD "") row.SPECIMEN_SOURCE row
                  = true ∨
               partsCompatible .SYSTEM ((m.part .SYSTEM).headD "") (getDefaultSpecimen row) row
                  = true)
           then (35 : ℝ) else 0)
        + (if row.RAW_UNIT ≠ "" ∧ row.RAW_UNIT = m.EXAMPLE_UCUM_UNITS then (10 : ℝ) else 0)
        + (if ∀ pt ∈ PartTypeList, selPartMatched row m pt = true then (50 : ℝ) else 0)
    ∧ ((∀ pt (info : InferredInfo), row.inferred pt = some info → info.names ≠ []) →
       (∀ pt, m.part pt = [] ∨ ∃ w, w ≠ "" ∧ m.part pt = [w]) →
       (∀ pt, refParts pt = if row.part pt = "" then [] else [row.part pt]) →
       (∀ pt ∈ PartTypeList, selPartMatched row m pt = true) →
       isAltLoinc row (targetTermParts row refParts) m.part level = ⟨true, []⟩) := by
  constructor
  · have hcnt : (countMatchedParts row m = PartTypeList.length) ↔
        (∀ pt ∈ PartTypeList, selPartMatched row m pt = true) := by
      rw [countMatchedParts]
      exact length_filter_eq_iff _ _
    simp only [computeScore]
    simp only [ite_sub_right, ite_ite_add_right, ite_add_right]
    rw [relax_penalty_eq]
    simp only [hcnt, ite_ite_collapse]
  · intro hNames hCand hRef hAll
    refine isAltLoinc_all_matched row _ m.part level (fun pt => ?_)
    exact matchPart_exact_of_selMatched row m refParts level pt
      (fun info h => hNames pt info h) (hCand pt) (hRef pt) (hAll pt (mem_partTypeList pt))

/-- C4 witness: the formula and the zero-relaxation acceptance evaluated on a
candidate that matches a record on all seven parts. -/
theorem computeScore_formula_witness :
    computeScore rowAllGlucose matchAllGlucose = 100 ∧
    isAltLoinc rowAllGlucose (targetTermParts rowAllGlucose refAllGlucose)
      matchAllGlucose.part 0 = ⟨true, []⟩ := by
  have h := computeScore_formula rowAllGlucose matchAllGlucose refAllGlucose 0
  constructor
  · rw [h.1]
    rw [if_neg (by decide), if_neg (by decide), if_neg (by decide), if_neg (by decide),
      if_pos (by decide)]
    rw [show ((matchAllGlucose.relaxations.length : ℝ)) = 0 by simp [matchAllGlucose],
      Real.zero_rpow (by norm_num : (0.25 : ℝ) ≠ 0)]
    norm_num
  · exact h.2 (fun pt info hh => by simp [rowAllGlucose] at hh) (fun pt => by
      right
      exact ⟨"Glucose", by decide, rfl⟩)
      (fun pt => by simp [refAllGlucose, rowAllGlucose])
      (fun pt _ => by cases pt <;> decide)

/-- C6 witness: a concrete downgraded row run through a concrete later step
sequence never shows `CORRECT_aj`. -/
theorem judgment_never_returns_to_correct_witness :
    decide ((([PassStep.defaultAssign, PassStep.disagreeCheck .SYSTEM ["Urine"] (6/10),
        PassStep.markFixed].foldl applyPassStep
          (setJudgment rowW "INCORRECT_aj")).ALGO_JUDGEMENT = "CORRECT_aj")) = false :=
  decide_eq_false
    (judgment_never_returns_to_correct rowW
      [PassStep.defaultAssign, PassStep.disagreeCheck .SYSTEM ["Urine"] (6/10),
        PassStep.markFixed])
